import Mathlib

/-!
Verification of the CANopen slave-node core (object-dictionary access layer,
local node read/write resolution, and the PDO engine) against its
natural-language specification.  The Python sources embedded here are
`canopen/node/local.py`, `canopen/pdo.py` and `canopen/pdo/__init__.py`.
Modules of the repository that are not part of the source tree
(`canopen/objectdictionary`, `canopen/pdo/base.py`, `canopen/sdo`) are
modelled from the specification where the claims need them; every such
definition carries a doc comment saying so.
-/

namespace Canopen

/-! ### Byte-level codec -/

/-- Little-endian byte string of a natural number, exactly `k` bytes. -/
def toLEBytes : Nat → Nat → List Nat
  | _, 0 => []
  | v, k + 1 => v % 256 :: toLEBytes (v / 256) k

/-- Value of a little-endian byte string. -/
def fromLEBytes : List Nat → Nat
  | [] => 0
  | b :: bs => b + 256 * fromLEBytes bs

/-- Modelled from the spec: `ObjectDictionary.Variable.encode_raw` of the missing
`canopen/objectdictionary` module.  Integer values are encoded two of
complement little-endian into exactly `bit_length / 8` bytes (spec section 4.1:
integer types are byte aligned in the OD). -/
def encodeRaw (bits : Nat) (v : Int) : List Nat :=
  toLEBytes (v.emod (2 ^ bits)).toNat (bits / 8)

/-- Modelled from the spec: `decode_raw` of the missing `canopen/objectdictionary`
module, the inverse of `encodeRaw`; the claims only exercise the byte-level
round trip, so the unsigned reading of the byte string suffices. -/
def decodeRaw (bs : List Nat) : Int :=
  (fromLEBytes bs : Int)

theorem toLEBytes_length (v k : Nat) : (toLEBytes v k).length = k := by
  induction k generalizing v with
  | zero => rfl
  | succ k ih => simp [toLEBytes, ih]

theorem fromLEBytes_lt (bs : List Nat) (h : ∀ b ∈ bs, b < 256) :
    fromLEBytes bs < 256 ^ bs.length := by
  induction bs with
  | nil => simp [fromLEBytes]
  | cons b tl ih =>
      have hb : b < 256 := h b (List.mem_cons_self b tl)
      have htl : fromLEBytes tl < 256 ^ tl.length :=
        ih (fun x hx => h x (List.mem_cons_of_mem b hx))
      have : b + 256 * fromLEBytes tl + 1 ≤ 256 * (fromLEBytes tl + 1) := by omega
      calc fromLEBytes (b :: tl) = b + 256 * fromLEBytes tl := rfl
        _ < 256 * (fromLEBytes tl + 1) := by omega
        _ ≤ 256 * 256 ^ tl.length := by
              have : fromLEBytes tl + 1 ≤ 256 ^ tl.length := htl
              exact Nat.mul_le_mul_left 256 this
        _ = 256 ^ (tl.length + 1) := by ring
        _ = 256 ^ (b :: tl).length := by simp

theorem toLEBytes_fromLEBytes (bs : List Nat) (h : ∀ b ∈ bs, b < 256) :
    toLEBytes (fromLEBytes bs) bs.length = bs := by
  induction bs with
  | nil => rfl
  | cons b tl ih =>
      have hb : b < 256 := h b (List.mem_cons_self b tl)
      have htl : ∀ x ∈ tl, x < 256 := fun x hx => h x (List.mem_cons_of_mem b hx)
      have hmod : (b + 256 * fromLEBytes tl) % 256 = b := by
        rw [Nat.add_mul_mod_self_left]
        exact Nat.mod_eq_of_lt hb
      have hdiv : (b + 256 * fromLEBytes tl) / 256 = fromLEBytes tl := by
        rw [Nat.add_mul_div_left _ _ (by norm_num : 0 < 256)]
        simp [Nat.div_eq_of_lt hb]
      simp only [List.length_cons, fromLEBytes, toLEBytes, hmod, hdiv,
        List.cons.injEq]
      exact ⟨trivial, ih htl⟩

/-- Byte-level round trip: re-encoding a decoded byte string of the right width
returns the same bytes. -/
theorem encodeRaw_decodeRaw (bits : Nat) (bs : List Nat)
    (hlen : bs.length = bits / 8) (hdvd : bits % 8 = 0)
    (hbytes : ∀ b ∈ bs, b < 256) :
    encodeRaw bits (decodeRaw bs) = bs := by
  have hlt : fromLEBytes bs < 2 ^ bits := by
    have h1 : fromLEBytes bs < 256 ^ bs.length := fromLEBytes_lt bs hbytes
    have h2 : (256 : Nat) ^ bs.length = 2 ^ bits := by
      rw [hlen, show (256 : Nat) = 2 ^ 8 from rfl, ← pow_mul]
      congr 1
      omega
    omega
  have hmod : ((fromLEBytes bs : Int)).emod ((2 : Int) ^ bits) = (fromLEBytes bs : Int) := by
    apply Int.emod_eq_of_lt
    · exact Int.ofNat_nonneg _
    · exact_mod_cast hlt
  unfold encodeRaw decodeRaw
  rw [hmod, Int.toNat_natCast, ← hlen]
  exact toLEBytes_fromLEBytes bs hbytes

/-! ### Object dictionary model

Modelled from the spec (section 3): the `canopen/objectdictionary` module is not
part of the source tree.  Only the fields the embedded code consults are kept:
access flags, bit length, the EDS `ParameterValue` (`value`) and the default. -/

structure ODVariable where
  index : Nat
  subindex : Nat
  readable : Bool
  writable : Bool
  bit_length : Nat
  value : Option Int
  default : Option Int
deriving DecidableEq

/-- Modelled from the spec: an object-dictionary entry is a Variable, a Record
or an Array; Records and Arrays hold sub-variables keyed by subindex. -/
inductive ODEntry where
  | variableE (v : ODVariable)
  | recordE (subs : Nat → Option ODVariable)
  | arrayE (subs : Nat → Option ODVariable)

/-- An object dictionary maps a 16-bit index to an entry. -/
def ObjectDictionary : Type := Nat → Option ODEntry

/-! ### LocalNode (from `canopen/node/local.py`) -/

/-- State of a `LocalNode`: the object dictionary, the `data_store` dict of
dicts (modelled as a partial map), the ordered read-callback list and the
ordered write-callback list.  Write callbacks are identified by opaque ids; a
`setData` call reports their invocations as events (the registered subsystem
callbacks never touch `data_store`). -/
structure LocalNode where
  od : ObjectDictionary
  dataStore : Nat → Nat → Option (List Nat)
  readCallbacks : List (Nat → Nat → Option Int)
  writeCallbacks : List Nat

/-- Embedding of `LocalNode._find_object` (local.py lines 121-132): a missing
index aborts with 0x06020000; a Record or Array without the subindex aborts
with 0x06090011; a Variable entry is returned as is. -/
def findObject (od : ObjectDictionary) (index subindex : Nat) :
    Except Nat ODVariable :=
  match od index with
  | none => .error 0x06020000
  | some (.variableE v) => .ok v
  | some (.recordE subs) =>
      match subs subindex with
      | none => .error 0x06090011
      | some v => .ok v
  | some (.arrayE subs) =>
      match subs subindex with
      | none => .error 0x06090011
      | some v => .ok v

/-- First non-null result of the read callbacks, in registration order
(the `for callback in self._read_callbacks` loop of `get_data`). -/
def firstCallback : List (Nat → Nat → Option Int) → Nat → Nat → Option Int
  | [], _, _ => none
  | cb :: rest, i, s =>
      match cb i s with
      | some r => some r
      | none => firstCallback rest i s

/-- Embedding of `LocalNode.get_data` (local.py lines 78-105): find the object,
optionally check readability (aborting with 0x06010001), then resolve the
value: first read callback with a non-null result, else `data_store`, else the
EDS `ParameterValue`, else the default, else zero of the entry width. -/
def getData (n : LocalNode) (index subindex : Nat) (checkReadable : Bool) :
    Except Nat (List Nat) :=
  match findObject n.od index subindex with
  | .error e => .error e
  | .ok obj =>
      if checkReadable && !obj.readable then .error 0x06010001
      else
        match firstCallback n.readCallbacks index subindex with
        | some r => .ok (encodeRaw obj.bit_length r)
        | none =>
            match n.dataStore index subindex with
            | some d => .ok d
            | none =>
                match obj.value with
                | some v => .ok (encodeRaw obj.bit_length v)
                | none =>
                    match obj.default with
                    | some d => .ok (encodeRaw obj.bit_length d)
                    | none => .ok (encodeRaw obj.bit_length 0)

/-- Observable effects of a `set_data` call: the store into `data_store`
followed by the write-callback invocations. -/
inductive Event where
  | store (index subindex : Nat) (data : List Nat)
  | callback (id index subindex : Nat) (data : List Nat)
deriving DecidableEq

/-- Update of the `data_store` dict of dicts
(`data_store.setdefault(index, {}); data_store[index][subindex] = bytes(data)`). -/
def storeInsert (ds : Nat → Nat → Option (List Nat)) (index subindex : Nat)
    (data : List Nat) : Nat → Nat → Option (List Nat) :=
  fun i s => if i = index ∧ s = subindex then some data else ds i s

/-- Embedding of `LocalNode.set_data` (local.py lines 107-119): find the
object, optionally check writability (aborting with 0x06010002 before any
mutation), then store the blob and invoke every write callback in registration
order.  The returned event list records the store followed by the callback
invocations, in program order. -/
def setData (n : LocalNode) (index subindex : Nat) (data : List Nat)
    (checkWritable : Bool) : Except Nat (LocalNode × List Event) :=
  match findObject n.od index subindex with
  | .error e => .error e
  | .ok obj =>
      if checkWritable && !obj.writable then .error 0x06010002
      else
        .ok ({ n with dataStore := storeInsert n.dataStore index subindex data },
             Event.store index subindex data ::
               n.writeCallbacks.map (fun c => Event.callback c index subindex data))

/-! ### Concrete nodes used by the witnesses -/

/-- A read-only 32-bit variable (access ro). -/
def roVarC2 : ODVariable :=
  { index := 0x1000, subindex := 0, readable := true, writable := false,
    bit_length := 32, value := none, default := none }

/-- A write-only 32-bit variable (access wo). -/
def woVarC2 : ODVariable :=
  { index := 0x1001, subindex := 0, readable := false, writable := true,
    bit_length := 32, value := none, default := none }

/-- Node holding a read-only variable at 0x1000 and a write-only one at 0x1001. -/
def nodeC2 : LocalNode :=
  { od := fun i =>
      if i = 0x1000 then some (.variableE roVarC2)
      else if i = 0x1001 then some (.variableE woVarC2)
      else none,
    dataStore := fun _ _ => none,
    readCallbacks := [],
    writeCallbacks := [] }

/-- A plain readable 32-bit variable at 0x1003. -/
def varC1 : ODVariable :=
  { index := 0x1003, subindex := 5, readable := true, writable := true,
    bit_length := 32, value := none, default := none }

/-- Node with one read callback answering 0x0201 for index 0x1003 (the scenario
of `test_callbacks` in test_local.py). -/
def nodeC1 : LocalNode :=
  { od := fun i => if i = 0x1003 then some (.variableE varC1) else none,
    dataStore := fun _ _ => none,
    readCallbacks := [fun i _ => if i = 0x1003 then some 0x0201 else none],
    writeCallbacks := [] }

/-- A 32-bit variable with neither a `ParameterValue` nor a default. -/
def varC1z : ODVariable :=
  { index := 0x2000, subindex := 0, readable := true, writable := true,
    bit_length := 32, value := none, default := none }

/-- Node with no callbacks, no stored data, no value and no default at 0x2000. -/
def nodeC1z : LocalNode :=
  { od := fun i => if i = 0x2000 then some (.variableE varC1z) else none,
    dataStore := fun _ _ => none,
    readCallbacks := [],
    writeCallbacks := [] }

/-- Sub-variables of the record at 0x1018: subindices 0 to 4 exist. -/
def recSubsC6 : Nat → Option ODVariable := fun s =>
  if s ≤ 4 then
    some { index := 0x1018, subindex := s, readable := true, writable := false,
           bit_length := 32, value := none, default := none }
  else none

/-- Node whose dictionary holds only the record 0x1018. -/
def nodeC6 : LocalNode :=
  { od := fun i => if i = 0x1018 then some (.recordE recSubsC6) else none,
    dataStore := fun _ _ => none,
    readCallbacks := [],
    writeCallbacks := [] }

/-- A writable 16-bit variable at 0x2004. -/
def varC9 : ODVariable :=
  { index := 0x2004, subindex := 0, readable := true, writable := true,
    bit_length := 16, value := none, default := none }

/-- Node with two registered write callbacks (ids 10 and 11, in that order). -/
def nodeC9 : LocalNode :=
  { od := fun i => if i = 0x2004 then some (.variableE varC9) else none,
    dataStore := fun _ _ => none,
    readCallbacks := [],
    writeCallbacks := [10, 11] }

/-! ### C1: read resolution order of `LocalNode.get_data` -/

/-- The read-resolution order as the specification states it, written out
independently of `getData` for comparison: first registered read callback with
a non-null result (encoded), else the stored bytes, else the encoded `value`
attribute, else the encoded default, else the encoding of zero. -/
def specReadResolution (n : LocalNode) (obj : ODVariable) (index subindex : Nat) :
    List Nat :=
  match firstCallback n.readCallbacks index subindex with
  | some r => encodeRaw obj.bit_length r
  | none =>
      match n.dataStore index subindex with
      | some b => b
      | none =>
          match obj.value with
          | some v => encodeRaw obj.bit_length v
          | none =>
              match obj.default with
              | some d => encodeRaw obj.bit_length d
              | none => encodeRaw obj.bit_length 0

/-- C1: for every (index, subindex) naming an existing OD Variable, `get_data`
resolves the value in exactly the claimed order, and when no callback hits, no
data is stored and neither `value` nor `default` is set it returns the zero
encoding of the entry width instead of raising. -/
theorem getData_resolution_order (n : LocalNode) (index subindex : Nat)
    (obj : ODVariable) (h : findObject n.od index subindex = .ok obj) :
    getData n index subindex false = .ok (specReadResolution n obj index subindex) ∧
    (firstCallback n.readCallbacks index subindex = none →
      n.dataStore index subindex = none → obj.value = none → obj.default = none →
      getData n index subindex false = .ok (encodeRaw obj.bit_length 0)) := by
  have hmain : getData n index subindex false =
      .ok (specReadResolution n obj index subindex) := by
    simp only [getData, specReadResolution, h, Bool.false_and, Bool.not_eq_true,
      if_false]
    cases firstCallback n.readCallbacks index subindex with
    | some r => rfl
    | none =>
        cases n.dataStore index subindex with
        | some d => rfl
        | none =>
            cases hv : obj.value with
            | some v => rfl
            | none =>
                cases hd : obj.default with
                | some d => rfl
                | none => rfl
  refine ⟨hmain, fun h1 h2 h3 h4 => ?_⟩
  rw [hmain]
  simp only [specReadResolution, h1, h2, h3, h4]

/-- Witness for C1: the callback hit resolves first on `nodeC1` (encoding
0x0201 over 4 bytes), and the zero fallback applies on `nodeC1z`. -/
theorem getData_resolution_order_witness :
    (getData nodeC1 0x1003 5 false =
        .ok (specReadResolution nodeC1 varC1 0x1003 5) ∧
      specReadResolution nodeC1 varC1 0x1003 5 = [0x01, 0x02, 0, 0]) ∧
    getData nodeC1z 0x2000 0 false = .ok (encodeRaw varC1z.bit_length 0) :=
  ⟨⟨(getData_resolution_order nodeC1 0x1003 5 varC1 rfl).1, by decide⟩,
   (getData_resolution_order nodeC1z 0x2000 0 varC1z rfl).2 rfl rfl rfl rfl⟩

/-! ### C2: access-violation abort codes -/

/-- Counterexample to C2 as stated: on `nodeC2`, writing the read-only variable
0x1000 aborts with 0x06010002 (not the claimed 0x06010001) and reading the
write-only variable 0x1001 aborts with 0x06010001 (not the claimed
0x06010002). -/
theorem accessViolation_codes_counterexample :
    findObject nodeC2.od 0x1000 0 = .ok roVarC2 ∧ roVarC2.writable = false ∧
    setData nodeC2 0x1000 0 [1] true = .error 0x06010002 ∧
    setData nodeC2 0x1000 0 [1] true ≠ .error 0x06010001 ∧
    findObject nodeC2.od 0x1001 0 = .ok woVarC2 ∧ woVarC2.readable = false ∧
    getData nodeC2 0x1001 0 true = .error 0x06010001 ∧
    getData nodeC2 0x1001 0 true ≠ .error 0x06010002 := by
  refine ⟨rfl, rfl, rfl, ?_, rfl, rfl, rfl, ?_⟩
  · intro hc
    rw [show setData nodeC2 0x1000 0 [1] true = .error 0x06010002 from rfl] at hc
    injection hc with hcode
    exact absurd hcode (by decide)
  · intro hc
    rw [show getData nodeC2 0x1001 0 true = .error 0x06010001 from rfl] at hc
    injection hc with hcode
    exact absurd hcode (by decide)

/-- C2 amended: the two access-violation codes are the reverse of the claimed
labelling — writing a non-writable entry aborts with 0x06010002 and reading a
non-readable entry aborts with 0x06010001 (the CiA 301 assignment). -/
theorem accessViolation_codes_swapped (n : LocalNode) (index subindex : Nat)
    (d : List Nat) (obj : ODVariable)
    (h : findObject n.od index subindex = .ok obj) :
    (obj.writable = false → setData n index subindex d true = .error 0x06010002) ∧
    (obj.readable = false → getData n index subindex true = .error 0x06010001) := by
  constructor
  · intro hw
    simp [setData, h, hw]
  · intro hr
    simp [getData, h, hr]

/-- Witness for the amended C2 on the concrete node `nodeC2`. -/
theorem accessViolation_codes_swapped_witness :
    setData nodeC2 0x1000 0 [1] true = .error 0x06010002 ∧
    getData nodeC2 0x1001 0 true = .error 0x06010001 :=
  ⟨(accessViolation_codes_swapped nodeC2 0x1000 0 [1] roVarC2 rfl).1 rfl,
   (accessViolation_codes_swapped nodeC2 0x1001 0 [1] woVarC2 rfl).2 rfl⟩

/-! ### C6: object / subindex existence abort codes -/

/-- C6: a missing index makes both `get_data` and `set_data` abort with
0x06020000, and a Record or Array without the requested subindex makes both
abort with 0x06090011. -/
theorem findObject_abort_codes (n : LocalNode) (index subindex : Nat)
    (d : List Nat) (c1 c2 : Bool) :
    (n.od index = none →
      getData n index subindex c1 = .error 0x06020000 ∧
      setData n index subindex d c2 = .error 0x06020000) ∧
    (∀ subs,
      (n.od index = some (ODEntry.recordE subs) ∨
        n.od index = some (ODEntry.arrayE subs)) →
      subs subindex = none →
      getData n index subindex c1 = .error 0x06090011 ∧
      setData n index subindex d c2 = .error 0x06090011) := by
  constructor
  · intro h
    exact ⟨by simp [getData, findObject, h], by simp [setData, findObject, h]⟩
  · intro subs hsome hnone
    rcases hsome with h | h
    · exact ⟨by simp [getData, findObject, h, hnone],
        by simp [setData, findObject, h, hnone]⟩
    · exact ⟨by simp [getData, findObject, h, hnone],
        by simp [setData, findObject, h, hnone]⟩

/-- Witness for C6: index 0x1234 does not exist on `nodeC6` and subindex 100 of
the record 0x1018 does not exist (the scenarios S8 and S9 of the spec). -/
theorem findObject_abort_codes_witness :
    getData nodeC6 0x1234 0 false = .error 0x06020000 ∧
    setData nodeC6 0x1234 0 [0] false = .error 0x06020000 ∧
    getData nodeC6 0x1018 100 false = .error 0x06090011 ∧
    setData nodeC6 0x1018 100 [0] false = .error 0x06090011 :=
  ⟨((findObject_abort_codes nodeC6 0x1234 0 [0] false false).1 rfl).1,
   ((findObject_abort_codes nodeC6 0x1234 0 [0] false false).1 rfl).2,
   ((findObject_abort_codes nodeC6 0x1018 100 [0] false false).2 recSubsC6
      (Or.inl rfl) rfl).1,
   ((findObject_abort_codes nodeC6 0x1018 100 [0] false false).2 recSubsC6
      (Or.inl rfl) rfl).2⟩

/-! ### C9: write-failure atomicity and callback order of `set_data` -/

/-- C9: a writability violation aborts with no store and no callback invocation
(the error carries no state and no events), while a successful `set_data`
stores the blob first and then fires every registered write callback in
registration order; only the written slot of `data_store` changes. -/
theorem setData_atomicity (n : LocalNode) (index subindex : Nat) (d : List Nat)
    (obj : ODVariable) (h : findObject n.od index subindex = .ok obj) :
    (obj.writable = false → setData n index subindex d true = .error 0x06010002) ∧
    (obj.writable = true →
      ∃ n2, setData n index subindex d true =
          .ok (n2, Event.store index subindex d ::
                n.writeCallbacks.map (fun c => Event.callback c index subindex d)) ∧
        n2.dataStore index subindex = some d ∧
        (∀ i s, ¬(i = index ∧ s = subindex) → n2.dataStore i s = n.dataStore i s) ∧
        n2.od = n.od ∧ n2.readCallbacks = n.readCallbacks ∧
        n2.writeCallbacks = n.writeCallbacks) := by
  constructor
  · intro hw
    simp [setData, h, hw]
  · intro hw
    refine ⟨{ n with dataStore := storeInsert n.dataStore index subindex d },
      ?_, ?_, ?_, rfl, rfl, rfl⟩
    · simp [setData, h, hw]
    · simp [storeInsert]
    · intro i s hne
      simp only [storeInsert]
      exact if_neg hne

/-- Witness for C9 on `nodeC9` (write callbacks 10 and 11): the stored event
precedes the two callback events, in registration order. -/
theorem setData_atomicity_witness :
    ∃ n2, setData nodeC9 0x2004 0 [0xFF, 0xFE] true =
        .ok (n2, Event.store 0x2004 0 [0xFF, 0xFE] ::
              nodeC9.writeCallbacks.map
                (fun c => Event.callback c 0x2004 0 [0xFF, 0xFE])) ∧
      n2.dataStore 0x2004 0 = some [0xFF, 0xFE] ∧
      (∀ i s, ¬(i = 0x2004 ∧ s = 0) → n2.dataStore i s = nodeC9.dataStore i s) ∧
      n2.od = nodeC9.od ∧ n2.readCallbacks = nodeC9.readCallbacks ∧
      n2.writeCallbacks = nodeC9.writeCallbacks :=
  (setData_atomicity nodeC9 0x2004 0 [0xFF, 0xFE] varC9 rfl).2 rfl

/-! ### PDO engine: the `Message` class of `canopen/pdo.py` -/

/-- A mapped variable of a PDO frame: the referenced OD index and subindex, the
bit offset inside the frame and the bit length (`len(var.od)` in the source,
asserted equal to the descriptor size field on read). -/
structure MappedVariable where
  index : Nat
  subindex : Nat
  offset : Nat
  bit_length : Nat
deriving DecidableEq

/-- State of a `Message` (pdo.py lines 109-124).  `enabled` and `cob_id` are
options because `save` tests them against `None`. -/
structure Message where
  com_index : Nat
  map_index : Nat
  enabled : Option Bool
  cob_id : Option Nat
  trans_type : Option Nat
  map : Option (List MappedVariable)
  data : List Nat
deriving DecidableEq

/-- Embedding of `Message._get_variable` (pdo.py 147-153): plain dictionary
lookup, descending into a Record or Array; a miss is a lookup failure. -/
def getVariable (od : ObjectDictionary) (index subindex : Nat) :
    Option ODVariable :=
  match od index with
  | none => none
  | some (.variableE v) => some v
  | some (.recordE subs) => subs subindex
  | some (.arrayE subs) => subs subindex

/-- Embedding of `Message._get_total_size` (pdo.py 141-145): the sum of the
bit lengths of the mapped variables. -/
def totalBits (vars : List MappedVariable) : Nat :=
  vars.foldl (fun acc v => acc + v.bit_length) 0

/-- The mapping-record loop of `Message.read` (pdo.py 170-185): subindex-0
entries are skipped; each descriptor `(index<<16)|(subindex<<8)|bit_length` is
resolved in the OD, the size field is asserted equal to the OD bit length
(failing hard otherwise), and the running bit offset is accumulated. -/
def readMapping (od : ObjectDictionary) :
    List (Nat × Nat) → Nat → Except String (List MappedVariable)
  | [], _ => .ok []
  | (s, value) :: rest, offset =>
      if s = 0 then readMapping od rest offset
      else
        match getVariable od (value >>> 16) ((value >>> 8) &&& 0xFF) with
        | none => .error "KeyError"
        | some var =>
            if value &&& 0xFF = var.bit_length then
              match readMapping od rest (offset + (value &&& 0xFF)) with
              | .ok vars =>
                  .ok ({ index := value >>> 16,
                         subindex := (value >>> 8) &&& 0xFF,
                         offset := offset,
                         bit_length := value &&& 0xFF } :: vars)
              | .error e => .error e
            else .error "Size mismatch"

/-- Embedding of `Message.read` (pdo.py 158-186).  `com1` and `com2` are the
raw values of the communication record at subindices 1 and 2, `mapEntries` the
(subindex, raw value) pairs of the mapping record.  The COB-ID keeps the low 11
bits, `enabled` is bit 31 clear, and `data` is reallocated to
`ceil(total_bits/8)` zero bytes. -/
def messageRead (od : ObjectDictionary) (com1 com2 : Nat)
    (mapEntries : List (Nat × Nat)) (msg : Message) : Except String Message :=
  match readMapping od mapEntries 0 with
  | .error e => .error e
  | .ok vars =>
      .ok { msg with
            cob_id := some (com1 &&& 0x7FF),
            enabled := some (decide (com1 &&& 0x80000000 = 0)),
            trans_type := some com2,
            map := some vars,
            data := List.replicate ((totalBits vars + 7) / 8) 0 }

/-- A single configuration write performed by `Message.save`: either to the
communication record or to the mapping record, at a subindex, with a raw
value. -/
inductive PdoWrite where
  | com (subindex value : Nat)
  | mapw (subindex value : Nat)
deriving DecidableEq

/-- The mapping descriptor written back by `save`
(`var.od.index << 16 | var.od.subindex << 8 | len(var.od)`). -/
def descriptorValue (v : MappedVariable) : Nat :=
  (v.index <<< 16) ||| (v.subindex <<< 8) ||| v.bit_length

/-- The descriptor write-back loop of `Message.save` (pdo.py 207-214):
`subindex` starts at 1 and increments per mapped variable. -/
def mapWriteLoop : List MappedVariable → Nat → List PdoWrite
  | [], _ => []
  | v :: rest, subindex =>
      PdoWrite.mapw subindex (descriptorValue v) :: mapWriteLoop rest (subindex + 1)

/-- Embedding of `Message.save` (pdo.py 188-218) as the ordered list of
configuration writes it performs plus the updated message.  `com1` is the raw
value read from the communication record at subindex 1 (used when `cob_id` or
`enabled` is still unset).  The sequence is: subindex 1 with bit 31 set, the
transmission type when set, the mapping count `len(map)` followed by the
descriptors when the map is set, and subindex 1 with the plain COB-ID when the
PDO is enabled. -/
def messageSave (com1 : Nat) (msg : Message) : List PdoWrite × Message :=
  let cob := match msg.cob_id with
    | some c => c
    | none => com1 &&& 0x7FF
  let en : Bool := match msg.enabled with
    | some b => b
    | none => decide (com1 &&& 0x80000000 = 0)
  let transWrites := match msg.trans_type with
    | some t => [PdoWrite.com 2 t]
    | none => []
  let mapWrites := match msg.map with
    | some vars => PdoWrite.mapw 0 vars.length :: mapWriteLoop vars 1
    | none => []
  let newData := match msg.map with
    | some vars => List.replicate ((totalBits vars + 7) / 8) 0
    | none => msg.data
  (PdoWrite.com 1 (cob ||| 0x80000000) :: transWrites ++ mapWrites ++
      (if en then [PdoWrite.com 1 cob] else []),
   { msg with cob_id := some cob, enabled := some en, data := newData })

/-- The write-back order asserted by the specification for C3, written from the
words of the claim: disable, trans_type, mapping count = 0, the descriptors,
the mapping count = n, re-enable when enabled. -/
def specSaveTrace (cob transType : Nat) (vars : List MappedVariable)
    (enabled : Bool) : List PdoWrite :=
  [PdoWrite.com 1 (cob ||| 0x80000000), PdoWrite.com 2 transType,
    PdoWrite.mapw 0 0]
    ++ (List.enumFrom 1 vars).map (fun p => PdoWrite.mapw p.1 (descriptorValue p.2))
    ++ [PdoWrite.mapw 0 vars.length]
    ++ (if enabled then [PdoWrite.com 1 cob] else [])

/-- A mapped 32-bit variable used in the save-order scenario. -/
def varC3 : MappedVariable :=
  { index := 0x2013, subindex := 0, offset := 0, bit_length := 32 }

/-- An enabled PDO message with one mapped variable and a set transmission
type. -/
def msgC3 : Message :=
  { com_index := 0x1401, map_index := 0x1601, enabled := some true,
    cob_id := some 0x201, trans_type := some 255, map := some [varC3],
    data := [] }

/-! ### C3: write-back order of `Message.save` -/

/-- Counterexample to C3 as stated: on the concrete enabled message `msgC3`
with one mapped variable, the writes performed by `save` are not the claimed
sequence — the mapping count is written once (with value 1, before the
descriptor), never as the claimed 0-then-n pair. -/
theorem messageSave_order_counterexample :
    (messageSave 0 msgC3).1 ≠ specSaveTrace 0x201 255 [varC3] true := by
  decide

/-- C3 amended: for a message whose COB-ID, transmission type, enabled flag and
mapping are all set, `save` writes, in order: comm subindex 1 with bit 31 set,
the transmission type to comm subindex 2, the mapping count `n` to mapping
subindex 0, the `n` descriptors to mapping subindices 1..n, and (when enabled)
comm subindex 1 with the plain COB-ID.  No zero mapping count is written and
the count precedes the descriptors. -/
theorem messageSave_order_amended (com1 : Nat) (msg : Message) (c t : Nat)
    (en : Bool) (vars : List MappedVariable)
    (hmap : msg.map = some vars) (hcob : msg.cob_id = some c)
    (htrans : msg.trans_type = some t) (hen : msg.enabled = some en) :
    (messageSave com1 msg).1 =
      [PdoWrite.com 1 (c ||| 0x80000000), PdoWrite.com 2 t,
        PdoWrite.mapw 0 vars.length]
        ++ (List.enumFrom 1 vars).map
            (fun p => PdoWrite.mapw p.1 (descriptorValue p.2))
        ++ (if en then [PdoWrite.com 1 c] else []) := by
  have hloop : ∀ (l : List MappedVariable) (k : Nat),
      mapWriteLoop l k =
        (List.enumFrom k l).map (fun p => PdoWrite.mapw p.1 (descriptorValue p.2)) := by
    intro l
    induction l with
    | nil => intro k; rfl
    | cons v tl ih => intro k; simp [mapWriteLoop, List.enumFrom, ih]
  simp [messageSave, hmap, hcob, htrans, hen, hloop]

/-- Witness for the amended C3, on the concrete message `msgC3`. -/
theorem messageSave_order_amended_witness :
    (messageSave 0 msgC3).1 =
      [PdoWrite.com 1 (0x201 ||| 0x80000000), PdoWrite.com 2 255,
        PdoWrite.mapw 0 [varC3].length]
        ++ (List.enumFrom 1 [varC3]).map
            (fun p => PdoWrite.mapw p.1 (descriptorValue p.2))
        ++ (if true then [PdoWrite.com 1 0x201] else []) :=
  messageSave_order_amended 0 msgC3 0x201 255 true [varC3] rfl rfl rfl rfl

/-! ### C5: `Message.read` -/

theorem foldl_add_bit (l : List MappedVariable) (a : Nat) :
    l.foldl (fun acc v => acc + v.bit_length) a =
      a + l.foldl (fun acc v => acc + v.bit_length) 0 := by
  induction l generalizing a with
  | nil => simp
  | cons v tl ih =>
      simp only [List.foldl_cons]
      rw [ih (a + v.bit_length), ih (0 + v.bit_length)]
      omega

theorem totalBits_cons (v : MappedVariable) (l : List MappedVariable) :
    totalBits (v :: l) = v.bit_length + totalBits l := by
  simp only [totalBits, List.foldl_cons]
  rw [foldl_add_bit]
  omega

/-- Offsets produced by the mapping loop: each accepted descriptor gets the
running sum of the bit lengths of the previously accepted ones, starting from
the initial offset. -/
theorem readMapping_offsets (od : ObjectDictionary) :
    ∀ (entries : List (Nat × Nat)) (off : Nat) (vars : List MappedVariable),
      readMapping od entries off = .ok vars →
      ∀ j (hj : j < vars.length),
        (vars.get ⟨j, hj⟩).offset = off + totalBits (vars.take j) := by
  intro entries
  induction entries with
  | nil =>
      intro off vars h j hj
      simp only [readMapping] at h
      injection h with h
      subst h
      simp at hj
  | cons q rest ih =>
      intro off vars h j hj
      obtain ⟨s, value⟩ := q
      simp only [readMapping] at h
      split at h
      · exact ih off vars h j hj
      · split at h
        · exact Except.noConfusion h
        · rename_i var heq
          split at h
          · rename_i hsize
            split at h
            · rename_i tvars heq2
              injection h with h
              subst h
              cases j with
              | zero => simp [totalBits]
              | succ jj =>
                  have hjj : jj < tvars.length := by
                    simpa using hj
                  have := ih (off + (value &&& 0xFF)) tvars heq2 jj hjj
                  simp only [List.get_cons_succ, List.take_succ_cons,
                    totalBits_cons] at *
                  omega
            · exact Except.noConfusion h
          · exact Except.noConfusion h

/-- Every non-zero-subindex entry accepted by the mapping loop resolves to an
OD variable whose bit length equals the descriptor size field. -/
theorem readMapping_sizes (od : ObjectDictionary) :
    ∀ (entries : List (Nat × Nat)) (off : Nat) (vars : List MappedVariable),
      readMapping od entries off = .ok vars →
      ∀ p ∈ entries, p.1 ≠ 0 →
        ∃ var, getVariable od (p.2 >>> 16) ((p.2 >>> 8) &&& 0xFF) = some var ∧
          p.2 &&& 0xFF = var.bit_length := by
  intro entries
  induction entries with
  | nil =>
      intro off vars h p hp
      exact absurd hp (List.not_mem_nil p)
  | cons q rest ih =>
      intro off vars h p hp hps
      obtain ⟨s, value⟩ := q
      simp only [readMapping] at h
      rcases List.mem_cons.mp hp with hpq | hmem
      · subst hpq
        simp only [ne_eq] at hps
        split at h
        · exact absurd ‹s = 0› hps
        · split at h
          · exact Except.noConfusion h
          · rename_i var heq
            split at h
            · exact ⟨var, heq, ‹value &&& 0xFF = var.bit_length›⟩
            · exact Except.noConfusion h
      · split at h
        · exact ih off vars h p hmem hps
        · split at h
          · exact Except.noConfusion h
          · split at h
            · split at h
              · rename_i tvars heq2
                exact ih _ tvars heq2 p hmem hps
              · exact Except.noConfusion h
            · exact Except.noConfusion h

/-- C5: after a successful `Message.read`, the COB-ID is the low 11 bits of
comm subindex 1, the PDO is enabled iff bit 31 of that field is clear, every
mapped variable sits at the running sum of the preceding bit lengths, every
accepted descriptor size matches the OD metadata (read fails hard otherwise),
and the data buffer holds `ceil(total_bits/8)` bytes. -/
theorem messageRead_fields (od : ObjectDictionary) (com1 com2 : Nat)
    (mapEntries : List (Nat × Nat)) (msg msg2 : Message)
    (h : messageRead od com1 com2 mapEntries msg = .ok msg2) :
    msg2.cob_id = some (com1 &&& 0x7FF) ∧
    msg2.enabled = some (decide (com1 &&& 0x80000000 = 0)) ∧
    (∃ vars, msg2.map = some vars ∧
      (∀ j (hj : j < vars.length),
        (vars.get ⟨j, hj⟩).offset = totalBits (vars.take j)) ∧
      msg2.data.length = (totalBits vars + 7) / 8) ∧
    (∀ p ∈ mapEntries, p.1 ≠ 0 →
      ∃ var, getVariable od (p.2 >>> 16) ((p.2 >>> 8) &&& 0xFF) = some var ∧
        p.2 &&& 0xFF = var.bit_length) := by
  unfold messageRead at h
  split at h
  · exact Except.noConfusion h
  · rename_i vars heq
    injection h with h
    subst h
    refine ⟨rfl, rfl, ⟨vars, rfl, ?_, by simp⟩, ?_⟩
    · intro j hj
      have := readMapping_offsets od mapEntries 0 vars heq j hj
      simpa using this
    · intro p hp hps
      exact readMapping_sizes od mapEntries 0 vars heq p hp hps

/-- The two 32-bit variables of the RPDO1 scenario (S6). -/
def varD1C5 : ODVariable :=
  { index := 0x2013, subindex := 0, readable := true, writable := true,
    bit_length := 32, value := none, default := none }

def varD2C5 : ODVariable :=
  { index := 0x2010, subindex := 0, readable := true, writable := true,
    bit_length := 32, value := none, default := none }

def odC5 : ObjectDictionary := fun i =>
  if i = 0x2013 then some (.variableE varD1C5)
  else if i = 0x2010 then some (.variableE varD2C5)
  else none

/-- Message state before the configuration read. -/
def msgInitC5 : Message :=
  { com_index := 0x1400, map_index := 0x1600, enabled := some false,
    cob_id := none, trans_type := none, map := none, data := [] }

/-- Mapping-record contents: count 2 at subindex 0, then the two descriptors
0x2013:0 (32 bit) and 0x2010:0 (32 bit). -/
def entriesC5 : List (Nat × Nat) := [(0, 2), (1, 0x20130020), (2, 0x20100020)]

/-- Result of the configuration read on this scenario. -/
def msgResC5 : Message :=
  { com_index := 0x1400, map_index := 0x1600, enabled := some true,
    cob_id := some 0x201, trans_type := some 255,
    map := some [{ index := 0x2013, subindex := 0, offset := 0, bit_length := 32 },
                 { index := 0x2010, subindex := 0, offset := 32, bit_length := 32 }],
    data := List.replicate 8 0 }

/-- Witness for C5 on the RPDO1 scenario: two 32-bit variables mapped at bit
offsets 0 and 32, an 8-byte buffer, COB-ID 0x201, enabled. -/
theorem messageRead_fields_witness :
    msgResC5.cob_id = some (0x201 &&& 0x7FF) ∧
    msgResC5.enabled = some (decide ((0x201 : Nat) &&& 0x80000000 = 0)) ∧
    (∃ vars, msgResC5.map = some vars ∧
      (∀ j (hj : j < vars.length),
        (vars.get ⟨j, hj⟩).offset = totalBits (vars.take j)) ∧
      msgResC5.data.length = (totalBits vars + 7) / 8) ∧
    (∀ p ∈ entriesC5, p.1 ≠ 0 →
      ∃ var, getVariable odC5 (p.2 >>> 16) ((p.2 >>> 8) &&& 0xFF) = some var ∧
        p.2 &&& 0xFF = var.bit_length) :=
  messageRead_fields odC5 0x201 255 entriesC5 msgInitC5 msgResC5 rfl

/-! ### C7: the periodic transmit task -/

/-- Embedding of the `_periodic_transmit` loop of pdo.py (lines 263-267) run
for a bounded number of iterations (`fuel` counts the loop turns until
`stop_event` is observed).  Iteration `i` performs `transmit i`; the loop body
contains no exception handler, so an error from a transmit propagates and the
remaining iterations never run.  On normal completion the number of the next
iteration is returned. -/
def periodicTransmitRun (transmit : Nat → Except Nat Unit) :
    Nat → Nat → Except Nat Nat
  | i, 0 => .ok i
  | i, fuel + 1 =>
      match transmit i with
      | .error e => .error e
      | .ok _ => periodicTransmitRun transmit (i + 1) fuel

/-- A transmit that fails (for example the network send raising) on the first
iteration only. -/
def failingTransmitC7 : Nat → Except Nat Unit := fun i =>
  if i = 0 then .error 42 else .ok ()

/-- Evidence for the C7 code bug: with three iterations scheduled and a single
failing transmit at iteration 0, the loop of `_periodic_transmit` terminates
with the error instead of continuing — while the same loop without errors
completes all three iterations.  The loop body has no handler, contradicting
the stated error-handling design. -/
theorem periodicTransmit_error_propagates :
    periodicTransmitRun failingTransmitC7 0 3 = .error 42 ∧
    periodicTransmitRun (fun _ => .ok ()) 0 3 = .ok 3 :=
  ⟨rfl, rfl⟩

/-! ### C10: `TPDO.on_data_write` matches by index alone -/

/-- A PDO frame of the split-architecture map: its mapped variables and its
byte buffer.  The containing Map class lives in `canopen/pdo/base.py`, which is
absent from the source tree; the buffer splice below is `Variable.set_data` of
pdo.py lines 285-288. -/
structure PdoFrame where
  map : List MappedVariable
  data : List Nat
deriving DecidableEq

/-- Byte-slice assignment `buf[off:off+len(d)] = d` of a Python bytearray
(out-of-range positions clamp, exactly as `List.take` and `List.drop` do). -/
def spliceAt (buf : List Nat) (off : Nat) (d : List Nat) : List Nat :=
  buf.take off ++ d ++ buf.drop (off + d.length)

/-- Embedding of the per-map loop of `TPDO.on_data_write`
(pdo/__init__.py lines 114-121): every mapped variable whose OD index equals
the written index gets the written bytes spliced into the frame buffer at its
byte offset; the subindex of the write is not consulted. -/
def onDataWriteFrame (fr : PdoFrame) (index : Nat) (d : List Nat) : PdoFrame :=
  { fr with
    data := fr.map.foldl
      (fun buf v => if v.index = index then spliceAt buf (v.offset / 8) d else buf)
      fr.data }

/-- Embedding of `TPDO.on_data_write` over all configured maps; the `subindex`
keyword argument is received but never used. -/
def tpdoOnDataWrite (frames : List PdoFrame) (index subindex : Nat)
    (d : List Nat) : List PdoFrame :=
  frames.map (fun fr => onDataWriteFrame fr index d)

theorem onDataWrite_go_nomatch (i : Nat) (d : List Nat) :
    ∀ (l : List MappedVariable) (buf : List Nat),
      (∀ w ∈ l, w.index ≠ i) →
      l.foldl (fun buf v => if v.index = i then spliceAt buf (v.offset / 8) d else buf)
          buf = buf := by
  intro l
  induction l with
  | nil => intro buf _; rfl
  | cons v tl ih =>
      intro buf h
      simp only [List.foldl_cons]
      rw [if_neg (h v (List.mem_cons_self v tl))]
      exact ih buf (fun w hw => h w (List.mem_cons_of_mem v hw))

theorem onDataWrite_go_unique (i : Nat) (d : List Nat) :
    ∀ (l : List MappedVariable) (buf : List Nat) (v : MappedVariable),
      l.filter (fun w => w.index == i) = [v] →
      l.foldl (fun buf w => if w.index = i then spliceAt buf (w.offset / 8) d else buf)
          buf = spliceAt buf (v.offset / 8) d := by
  intro l
  induction l with
  | nil => intro buf v h; exact absurd h (by simp)
  | cons w tl ih =>
      intro buf v h
      by_cases hw : w.index = i
      · rw [List.filter_cons_of_pos (by simpa using hw)] at h
        injection h with h1 h2
        subst h1
        simp only [List.foldl_cons, if_pos hw]
        apply onDataWrite_go_nomatch
        intro x hx
        have := List.filter_eq_nil_iff.mp h2 x hx
        simpa using this
      · rw [List.filter_cons_of_neg (by simpa using hw)] at h
        simp only [List.foldl_cons, if_neg hw]
        exact ih buf v h

/-- C10: `on_data_write` matches mapped variables by 16-bit index alone.  The
result never depends on the written subindex, and a frame whose single
index-matching variable is `v` — regardless of which subindex `v` maps — has
the written bytes spliced over the slice of `v`. -/
theorem onDataWrite_matches_index_only :
    (∀ (frames : List PdoFrame) (i s1 s2 : Nat) (d : List Nat),
      tpdoOnDataWrite frames i s1 d = tpdoOnDataWrite frames i s2 d) ∧
    (∀ (fr : PdoFrame) (i : Nat) (d : List Nat) (v : MappedVariable),
      fr.map.filter (fun w => w.index == i) = [v] →
      (onDataWriteFrame fr i d).data = spliceAt fr.data (v.offset / 8) d) := by
  constructor
  · intro frames i s1 s2 d
    rfl
  · intro fr i d v h
    simp only [onDataWriteFrame]
    exact onDataWrite_go_unique i d fr.map fr.data v h

/-- Frame mapping two variables of distinct indices and subindices 1 and 2. -/
def frW10 : PdoFrame :=
  { map := [{ index := 0x2000, subindex := 1, offset := 0, bit_length := 32 },
            { index := 0x2001, subindex := 2, offset := 32, bit_length := 32 }],
    data := [1, 2, 3, 4, 5, 6, 7, 8] }

def vW10 : MappedVariable :=
  { index := 0x2001, subindex := 2, offset := 32, bit_length := 32 }

/-- Witness for C10: a write to index 0x2001 (at OD subindex 0, different from
the mapped subindex 2) still overwrites the slice of the variable mapping
0x2001:2, and the result does not depend on the written subindex. -/
theorem onDataWrite_matches_index_only_witness :
    tpdoOnDataWrite [frW10] 0x2001 0 [9, 9, 9, 9] =
      tpdoOnDataWrite [frW10] 0x2001 2 [9, 9, 9, 9] ∧
    (onDataWriteFrame frW10 0x2001 [9, 9, 9, 9]).data =
      spliceAt frW10.data (vW10.offset / 8) [9, 9, 9, 9] :=
  ⟨onDataWrite_matches_index_only.1 [frW10] 0x2001 0 2 [9, 9, 9, 9],
   onDataWrite_matches_index_only.2 frW10 0x2001 [9, 9, 9, 9] vW10 (by decide)⟩

/-! ### C8: `remove_network` -/

/-- Handlers a LocalNode registers with the network hub. -/
inductive HandlerId where
  | sdoRequest
  | nmtCommand
  | pdoMap (number : Nat)
deriving DecidableEq

/-- The network hub subscription list (spec section 4.6): `subscribe` appends,
`unsubscribe` removes the given (COB-ID, handler) pair. -/
structure NetworkState where
  subs : List (Nat × HandlerId)
deriving DecidableEq

def subscribe (net : NetworkState) (cobId : Nat) (h : HandlerId) : NetworkState :=
  { subs := net.subs ++ [(cobId, h)] }

def unsubscribe (net : NetworkState) (cobId : Nat) (h : HandlerId) : NetworkState :=
  { subs := net.subs.filter (fun p => p != (cobId, h)) }

/-- Timer state of the node: whether the heartbeat producer runs and which
TPDO numbers own periodic transmit threads. -/
structure NodeTimers where
  heartbeatRunning : Bool
  periodicTpdos : List Nat
deriving DecidableEq

/-- Connection-relevant state of a LocalNode for C8: its id, the (number,
COB-ID) pairs of its PDO maps, its timers, and whether the network references
are set. -/
structure NodeConn where
  nodeId : Nat
  pdoCobIds : List (Nat × Nat)
  timers : NodeTimers
  connected : Bool
deriving DecidableEq

/-- Embedding of `LocalNode.associate_network` (local.py 49-60): subscribes the
SDO request handler at 0x600+id, the NMT command handler at COB-ID 0, and each
PDO map handler at its COB-ID (`subscribe_to_network` of the absent
`pdo/base.py`, modelled from the spec receive path). -/
def associateNetwork (node : NodeConn) (net : NetworkState) :
    NodeConn × NetworkState :=
  let net1 := subscribe net (0x600 + node.nodeId) HandlerId.sdoRequest
  let net2 := subscribe net1 0 HandlerId.nmtCommand
  let net3 := node.pdoCobIds.foldl
    (fun acc p => subscribe acc p.2 (HandlerId.pdoMap p.1)) net2
  ({ node with connected := true }, net3)

/-- Embedding of `LocalNode.remove_network` (local.py 62-70): unsubscribes the
SDO request handler and the NMT command handler and clears the network
references; the source touches neither the PDO map subscriptions nor any
timer. -/
def removeNetwork (node : NodeConn) (net : NetworkState) :
    NodeConn × NetworkState :=
  let net1 := unsubscribe net (0x600 + node.nodeId) HandlerId.sdoRequest
  let net2 := unsubscribe net1 0 HandlerId.nmtCommand
  ({ node with connected := false }, net2)

/-- Node 2 with one PDO map subscribed at COB-ID 0x202, a running heartbeat
producer and a periodic TPDO 2 thread. -/
def nodeC8 : NodeConn :=
  { nodeId := 2, pdoCobIds := [(1, 0x202)],
    timers := { heartbeatRunning := true, periodicTpdos := [2] },
    connected := false }

def afterAssociateC8 : NodeConn × NetworkState :=
  associateNetwork nodeC8 { subs := [] }

def afterRemoveC8 : NodeConn × NetworkState :=
  removeNetwork afterAssociateC8.1 afterAssociateC8.2

/-- Evidence for the C8 code bug: after `associate_network` followed by
`remove_network`, the PDO map subscription at COB-ID 0x202 is still registered
with the hub, and both the heartbeat producer and the periodic TPDO timer are
still running — `remove_network` returns without stopping any timer or
unsubscribing the PDO handlers, while the SDO and NMT handlers are removed. -/
theorem removeNetwork_leaves_subscriptions :
    (0x202, HandlerId.pdoMap 1) ∈ afterRemoveC8.2.subs ∧
    afterRemoveC8.1.timers.heartbeatRunning = true ∧
    afterRemoveC8.1.timers.periodicTpdos = [2] ∧
    (0x602, HandlerId.sdoRequest) ∉ afterRemoveC8.2.subs ∧
    (0, HandlerId.nmtCommand) ∉ afterRemoveC8.2.subs := by
  decide

/-! ### C4: RPDO reception back-propagates into the data store -/

/-- Modelled from the spec: the byte slice of a mapped variable inside a PDO
frame buffer (the receive-path MappedVariable accessor of the absent
`canopen/pdo/base.py`); offsets are byte aligned for the mappings the claims
consider, so the slice starts at byte `offset/8` and spans `bit_length/8`
bytes. -/
def pdoSlice (data : List Nat) (v : MappedVariable) : List Nat :=
  (data.drop (v.offset / 8)).take (v.bit_length / 8)

/-- Modelled from the spec: the SDO accessor assignment
`node.sdo[index][subindex].raw = value` of the absent `canopen/sdo` module
funnels through `set_data` with the value encoded by the OD entry
(spec section 2). -/
def sdoSetRaw (n : LocalNode) (index subindex : Nat) (v : Int) :
    Except Nat LocalNode :=
  match findObject n.od index subindex with
  | .error e => .error e
  | .ok obj =>
      match setData n index subindex (encodeRaw obj.bit_length v) false with
      | .error e => .error e
      | .ok (n2, _) => .ok n2

/-- The per-variable loop of `update_sdo_from_pdo` (local.py 135-141): for
every mapped variable of the map, write the decoded slice (`var.raw`) back
through the SDO accessor. -/
def updateSdoFromPdoGo (P : List Nat) :
    List MappedVariable → LocalNode → Except Nat LocalNode
  | [], n => .ok n
  | v :: rest, n =>
      match sdoSetRaw n v.index v.subindex (decodeRaw (pdoSlice P v)) with
      | .error e => .error e
      | .ok n2 => updateSdoFromPdoGo P rest n2

/-- Embedding of `update_sdo_from_pdo` (local.py 135-141) over a frame. -/
def updateSdoFromPdo (n : LocalNode) (fr : PdoFrame) : Except Nat LocalNode :=
  updateSdoFromPdoGo fr.data fr.map n

/-- Modelled from the spec: RPDO reception (`Map.on_message` of the absent
`canopen/pdo/base.py`) stores the payload into the frame buffer and then runs
the registered map callback `update_sdo_from_pdo`. -/
def rpdoOnMessage (n : LocalNode) (fr : PdoFrame) (payload : List Nat) :
    Except Nat (PdoFrame × LocalNode) :=
  let fr2 : PdoFrame := { fr with data := payload }
  match updateSdoFromPdo n fr2 with
  | .error e => .error e
  | .ok n2 => .ok (fr2, n2)

theorem sdoSetRaw_ok (n n1 : LocalNode) (index subindex : Nat) (v : Int)
    (h : sdoSetRaw n index subindex v = .ok n1) :
    ∃ obj, findObject n.od index subindex = .ok obj ∧
      n1 = { n with
             dataStore := storeInsert n.dataStore index subindex
               (encodeRaw obj.bit_length v) } := by
  unfold sdoSetRaw at h
  split at h
  · exact Except.noConfusion h
  · rename_i obj hobj
    have hset : setData n index subindex (encodeRaw obj.bit_length v) false =
        .ok ({ n with
               dataStore := storeInsert n.dataStore index subindex
                 (encodeRaw obj.bit_length v) },
             Event.store index subindex (encodeRaw obj.bit_length v) ::
               n.writeCallbacks.map
                 (fun c => Event.callback c index subindex
                   (encodeRaw obj.bit_length v))) := by
      simp [setData, hobj]
    simp only [hset] at h
    injection h with h
    exact ⟨obj, hobj, h.symm⟩

/-- Behaviour of the back-propagation loop: the object dictionary and the
callback lists are untouched, slots not named by the mapping keep their value,
and (when the mapping names pairwise distinct slots) every mapped slot ends up
holding the re-encoded decoded slice of the payload. -/
theorem updateSdoFromPdoGo_spec (P : List Nat) :
    ∀ (vars : List MappedVariable) (n n2 : LocalNode),
      updateSdoFromPdoGo P vars n = .ok n2 →
      n2.od = n.od ∧ n2.readCallbacks = n.readCallbacks ∧
      (∀ i s, (∀ v ∈ vars, ¬(v.index = i ∧ v.subindex = s)) →
        n2.dataStore i s = n.dataStore i s) ∧
      ((vars.map (fun v => (v.index, v.subindex))).Nodup →
        ∀ v ∈ vars, ∃ obj, findObject n.od v.index v.subindex = .ok obj ∧
          n2.dataStore v.index v.subindex =
            some (encodeRaw obj.bit_length (decodeRaw (pdoSlice P v)))) := by
  intro vars
  induction vars with
  | nil =>
      intro n n2 h
      injection h with h
      subst h
      exact ⟨rfl, rfl, fun i s _ => rfl,
        fun _ v hv => absurd hv (List.not_mem_nil v)⟩
  | cons v rest ih =>
      intro n n2 h
      unfold updateSdoFromPdoGo at h
      split at h
      · exact Except.noConfusion h
      · rename_i n1 heq
        obtain ⟨obj, hobj, hn1⟩ := sdoSetRaw_ok n n1 v.index v.subindex _ heq
        subst hn1
        obtain ⟨hod, hrc, hpres, hstore⟩ := ih _ n2 h
        refine ⟨by rw [hod], by rw [hrc], ?_, ?_⟩
        · intro i s hne
          rw [hpres i s (fun w hw => hne w (List.mem_cons_of_mem v hw))]
          simp only [storeInsert]
          rw [if_neg]
          intro hc
          exact hne v (List.mem_cons_self v rest) ⟨hc.1.symm, hc.2.symm⟩
        · intro hnodup w hw
          simp only [List.map_cons, List.nodup_cons] at hnodup
          obtain ⟨hnotmem, hnodup2⟩ := hnodup
          rcases List.mem_cons.mp hw with rfl | hmem
          · refine ⟨obj, hobj, ?_⟩
            rw [hpres w.index w.subindex ?_]
            · simp [storeInsert]
            · intro x hx hxc
              apply hnotmem
              have hxp : (x.index, x.subindex) = (w.index, w.subindex) := by
                rw [hxc.1, hxc.2]
              rw [← hxp]
              exact List.mem_map_of_mem _ hx
          · obtain ⟨obj2, hobj2, hst⟩ := hstore hnodup2 w hmem
            exact ⟨obj2, hobj2, hst⟩

/-- The back-propagation loop succeeds whenever every mapped variable exists in
the object dictionary (the internal `set_data` calls carry no writability
check). -/
theorem updateSdoFromPdoGo_total (P : List Nat) :
    ∀ (vars : List MappedVariable) (n : LocalNode),
      (∀ v ∈ vars, ∃ obj, findObject n.od v.index v.subindex = .ok obj) →
      ∃ n2, updateSdoFromPdoGo P vars n = .ok n2 := by
  intro vars
  induction vars with
  | nil => intro n _; exact ⟨n, rfl⟩
  | cons v rest ih =>
      intro n hv
      obtain ⟨obj, hobj⟩ := hv v (List.mem_cons_self v rest)
      have hsd : sdoSetRaw n v.index v.subindex (decodeRaw (pdoSlice P v)) =
          .ok { n with
                dataStore := storeInsert n.dataStore v.index v.subindex
                  (encodeRaw obj.bit_length (decodeRaw (pdoSlice P v))) } := by
        simp [sdoSetRaw, setData, hobj]
      obtain ⟨n2, h2⟩ := ih
        { n with
          dataStore := storeInsert n.dataStore v.index v.subindex
            (encodeRaw obj.bit_length (decodeRaw (pdoSlice P v))) }
        (fun w hw => hv w (List.mem_cons_of_mem v hw))
      refine ⟨n2, ?_⟩
      simp only [updateSdoFromPdoGo, hsd]
      exact h2

/-- C4: for an RPDO whose mapping names existing, pairwise distinct, byte
aligned OD slots and a payload of the correct length (on a node with no read
callbacks), reception stores the payload and afterwards `get_data` returns
exactly the payload slice of every mapped variable. -/
theorem rpdo_backpropagation (n : LocalNode) (fr : PdoFrame) (P : List Nat)
    (hcb : n.readCallbacks = [])
    (hvars : ∀ v ∈ fr.map, ∃ obj,
      findObject n.od v.index v.subindex = .ok obj ∧
      obj.bit_length = v.bit_length)
    (halign : ∀ v ∈ fr.map, v.offset % 8 = 0 ∧ v.bit_length % 8 = 0 ∧
      v.offset / 8 + v.bit_length / 8 ≤ P.length)
    (hbytes : ∀ b ∈ P, b < 256)
    (hnodup : (fr.map.map (fun v => (v.index, v.subindex))).Nodup) :
    ∃ fr2 n2, rpdoOnMessage n fr P = .ok (fr2, n2) ∧ fr2.data = P ∧
      ∀ v ∈ fr.map, getData n2 v.index v.subindex false = .ok (pdoSlice P v) := by
  obtain ⟨n2, hrun⟩ := updateSdoFromPdoGo_total P fr.map n
    (fun v hv => (hvars v hv).imp (fun obj h => h.1))
  refine ⟨{ fr with data := P }, n2, ?_, rfl, ?_⟩
  · simp only [rpdoOnMessage, updateSdoFromPdo, hrun]
  · intro v hv
    obtain ⟨hod, hrc, hpres, hstore⟩ := updateSdoFromPdoGo_spec P fr.map n n2 hrun
    obtain ⟨obj, hobj, hst⟩ := hstore hnodup v hv
    obtain ⟨obj2, hobj2, hbl⟩ := hvars v hv
    rw [hobj] at hobj2
    injection hobj2 with hoo
    have hbl2 : obj.bit_length = v.bit_length := by rw [hoo]; exact hbl
    have hslice_len : (pdoSlice P v).length = v.bit_length / 8 := by
      have := (halign v hv).2.2
      simp only [pdoSlice, List.length_take, List.length_drop]
      omega
    have hslice_bytes : ∀ b ∈ pdoSlice P v, b < 256 := by
      intro b hb
      exact hbytes b (List.drop_subset _ _ (List.take_subset _ _ hb))
    have hrt : encodeRaw obj.bit_length (decodeRaw (pdoSlice P v)) = pdoSlice P v := by
      rw [hbl2]
      exact encodeRaw_decodeRaw v.bit_length (pdoSlice P v) hslice_len
        (halign v hv).2.1 hslice_bytes
    have hfo : findObject n2.od v.index v.subindex = .ok obj := by
      rw [hod]; exact hobj
    have hfc : firstCallback n2.readCallbacks v.index v.subindex = none := by
      rw [hrc, hcb]; rfl
    simp [getData, hfo, hfc, hst, hrt]

/-- The two 32-bit OD variables of the RPDO1 back-propagation scenario. -/
def varA4 : ODVariable :=
  { index := 0x2013, subindex := 0, readable := true, writable := true,
    bit_length := 32, value := none, default := none }

def varB4 : ODVariable :=
  { index := 0x2010, subindex := 0, readable := true, writable := true,
    bit_length := 32, value := none, default := none }

/-- Node holding the two variables, with one registered write callback. -/
def nodeC4 : LocalNode :=
  { od := fun i =>
      if i = 0x2013 then some (.variableE varA4)
      else if i = 0x2010 then some (.variableE varB4)
      else none,
    dataStore := fun _ _ => none,
    readCallbacks := [],
    writeCallbacks := [20] }

/-- RPDO1 frame mapping 0x2013:0 and 0x2010:0, 32 bits each. -/
def frC4 : PdoFrame :=
  { map := [{ index := 0x2013, subindex := 0, offset := 0, bit_length := 32 },
            { index := 0x2010, subindex := 0, offset := 32, bit_length := 32 }],
    data := List.replicate 8 0 }

/-- Payload of scenario S6: 0x67 and 0x89 in the two 32-bit slots. -/
def payloadC4 : List Nat := [0x67, 0, 0, 0, 0x89, 0, 0, 0]

/-- Witness for C4 on scenario S6: after delivering the payload, the data
store answers the slice of every mapped variable. -/
theorem rpdo_backpropagation_witness :
    ∃ fr2 n2, rpdoOnMessage nodeC4 frC4 payloadC4 = .ok (fr2, n2) ∧
      fr2.data = payloadC4 ∧
      ∀ v ∈ frC4.map, getData n2 v.index v.subindex false =
        .ok (pdoSlice payloadC4 v) :=
  rpdo_backpropagation nodeC4 frC4 payloadC4 rfl
    (by
      intro v hv
      simp only [frC4, List.mem_cons, List.not_mem_nil, or_false] at hv
      rcases hv with rfl | rfl
      · exact ⟨varA4, rfl, rfl⟩
      · exact ⟨varB4, rfl, rfl⟩)
    (by decide) (by decide) (by decide)

end Canopen
